import Mathlib

/-!
Verification development for the vulnerability-database core of this
repository: the consistency validator (`internal/database/validate.go`),
and the entry normalizer and version-range reducer that it audits.

Modelling conventions:
* `time.Time` values are modelled as `Nat` (a point on a total order);
  `t1.After t2` is `t2 < t1`, and the zero time is `0`.
* Go maps are modelled as association lists (`List (key × value)`);
  map lookup is `alookup`, which returns the first binding of the key.
  Iterating a Go map visits each binding once in an unspecified order;
  the embedding iterates the association list in list order.
* `error` returns are modelled with `Except VError Unit`; each distinct
  `fmt.Errorf` site gets its own constructor carrying the data that the
  message interpolates.
* File-system paths seen by the directory walk are modelled as the list
  of path components relative to the database root (`dbPath` itself has
  no trailing slash, so `strings.TrimPrefix(path, dbPath)` followed by
  trimming one "/" yields the components joined by "/").
-/

namespace Cvelist

/-- One `{introduced, fixed}` event of an OSV version range
(`osv.RangeEvent`); an absent boundary is the empty string. -/
structure RangeEvent where
  introduced : String
  fixed : String
deriving DecidableEq

/-- One OSV version range (`osv.AffectsRange`): a type tag and a list of
events. -/
structure AffectsRange where
  typ : String
  events : List RangeEvent
deriving DecidableEq

/-- `osv.Package`: a module name plus ecosystem tag. -/
structure OsvPackage where
  name : String
  ecosystem : String
deriving DecidableEq

/-- One import listed in `osv.EcosystemSpecific`. -/
structure EcoImport where
  path : String
  symbols : List String
deriving DecidableEq

/-- `osv.Reference`: a typed URL. -/
structure Reference where
  typ : String
  url : String
deriving DecidableEq

/-- One `osv.Affected` block: the affected package, its version ranges,
and the database/ecosystem specific payloads. -/
structure Affected where
  pkg : OsvPackage
  ranges : List AffectsRange
  databaseSpecificURL : String
  ecosystemImports : List EcoImport
deriving DecidableEq

/-- A full OSV vulnerability entry (`osv.Entry`), with the fields the
database code reads and compares; `Modified`/`Published` timestamps are
modelled as `Nat`. -/
structure Entry where
  id : String
  published : Nat
  modified : Nat
  aliases : List String
  details : String
  affected : List Affected
  references : List Reference
deriving DecidableEq

/-- The in-memory database (`database.Database`) as used by
`validate.go`: the module index (module path to snapshot modified
timestamp), the per-module entry lists, the by-ID entry map, and the
alias index. -/
structure Database where
  index : List (String × Nat)
  entriesByModule : List (String × List Entry)
  entriesByID : List (String × Entry)
  idsByAlias : List (String × List String)
deriving DecidableEq

/-- Association-list lookup, modelling Go map indexing `m[k]`:
returns the first binding of the key. -/
def alookup {β : Type} : List (String × β) → String → Option β
  | [], _ => none
  | (k, v) :: rest, key => if key = k then some v else alookup rest key

/-- Modelled from the spec: the names of the ID subdirectory and the
index/aliases files are declared in a database-layout file of this
repository that is not under src/ (validate.go only references the
constants `idDirectory`, `indexFile`, `aliasesFile`). -/
def idDirectory : String := "ID"

/-- Modelled from the spec: the database index file name. -/
def indexFile : String := "index.json"

/-- Modelled from the spec: the database aliases file name. -/
def aliasesFile : String := "aliases.json"

/-- Every distinct error site of `validate.go`, carrying the data its
`fmt.Errorf` message interpolates. -/
inductive VError where
  | walkFailure (path : List String)
  | nonJSONFile (path : List String)
  | unexpectedID (id : String)
  | unescapeFailure (path : List String)
  | unexpectedModule (module : String)
  | lengthMismatch (il ml : Nat)
  | noModuleDir (module : String)
  | noAdvisoryForID (id module : String)
  | inconsistentContents (id : String)
  | incorrectModified (module : String) (want got : Nat)
  | moduleNotFound (module id : String)
  | missingEntryInModule (id module : String)
  | aliasNotFound (al id : String)
  | notListedAsAlias (id al : String)
  | noAdvisoryForAlias (id al : String)
  | missingAliasRef (id al : String)
deriving DecidableEq

/-- One entry visited by `filepath.WalkDir`: its path components
relative to the database root, whether it is a directory, and whether
the walk delivered an error for it (the `err != nil` parameter of the
callback). -/
structure DirEntry where
  relPath : List String
  isDir : Bool
  walkErr : Bool
deriving DecidableEq

/-- Split a character list at every occurrence of `c` (like
`strings.Split`). -/
def splitOnChar (c : Char) : List Char → List (List Char)
  | [] => [[]]
  | x :: xs =>
    match splitOnChar c xs with
    | [] => if x = c then [[], []] else [[x]]
    | h :: t => if x = c then [] :: h :: t else (x :: h) :: t

/-- `f.Name()`: the final path component. -/
def fnameOf (f : DirEntry) : String := f.relPath.getLastD ""

/-- `filepath.Ext`: the suffix of the file name starting at its final
dot, or the empty string if the name has no dot. -/
def extOf (name : String) : String :=
  match splitOnChar '.' name.data with
  | [] => ""
  | [_] => ""
  | chunks => String.mk ('.' :: chunks.getLastD [])

/-- `strings.TrimSuffix(s, ".json")`. -/
def trimSuffixJson (s : String) : String :=
  match s.data.reverse with
  | 'n' :: 'o' :: 's' :: 'j' :: '.' :: rest => String.mk rest.reverse
  | _ => s

/-- Join path components with "/" (the path relative to the database
root, as produced by the two TrimPrefix calls in `validate.go`). -/
def joinSlash : List String → String
  | [] => ""
  | [x] => x
  | x :: xs => x ++ "/" ++ joinSlash xs

/-- Modelled from the spec: `report.GetGoIDFromFilename` (declared in a
report-package file of this repository that is not under src/) decodes
a by-ID file name back to its vulnerability ID; per the spec the by-ID
files are per-vulnerability JSON files, so the decoding strips the
".json" suffix. -/
def goIDFromFilename (fn : String) : String := trimSuffixJson fn

/-- `isIndexOrWebFile` from validate.go: recognizes web and index files
by extension or exact name. -/
def isIndexOrWebFile (filename ext : String) : Prop :=
  ext = ".ico" ∨ ext = ".html" ∨ ext = "" ∨
    filename = indexFile ∨ filename = aliasesFile

instance (filename ext : String) : Decidable (isIndexOrWebFile filename ext) := by
  unfold isIndexOrWebFile
  infer_instance

/-- A file is in the top level of the database directory exactly when
its relative path has a single component (`filepath.Dir(path) == dbPath`). -/
def topLevel (f : DirEntry) : Prop := f.relPath.length = 1

instance (f : DirEntry) : Decidable (topLevel f) := by
  unfold topLevel
  infer_instance

/-- A file sits directly in the by-ID subdirectory exactly when its
relative path is `[idDirectory, name]`
(`filepath.Dir(path) == filepath.Join(dbPath, idDirectory)`). -/
def inIDDir (f : DirEntry) : Prop :=
  f.relPath.length = 2 ∧ f.relPath.headD "" = idDirectory

instance (f : DirEntry) : Decidable (inIDDir f) := by
  unfold inIDDir
  infer_instance

/-- The body of the `filepath.WalkDir` callback in
`checkNoUnexpectedFiles`, for a single visited entry. The module-path
unescaping (`client.UnescapeModulePath`, an external collaborator) is
passed in as `unesc`, with `none` modelling its error return. -/
def checkFileStep (d : Database) (unesc : String → Option String)
    (f : DirEntry) : Except VError Unit :=
  if f.walkErr then .error (.walkFailure f.relPath)
  else if f.isDir then .ok ()
  else if topLevel f ∧ isIndexOrWebFile (fnameOf f) (extOf (fnameOf f)) then .ok ()
  else if extOf (fnameOf f) ≠ ".json" then .error (.nonJSONFile f.relPath)
  else if inIDDir f then
    if fnameOf f = indexFile then .ok ()
    else
      match alookup d.entriesByID (goIDFromFilename (fnameOf f)) with
      | some _ => .ok ()
      | none => .error (.unexpectedID (goIDFromFilename (fnameOf f)))
  else
    match unesc (trimSuffixJson (joinSlash f.relPath)) with
    | none => .error (.unescapeFailure f.relPath)
    | some m =>
      match alookup d.entriesByModule m with
      | some _ => .ok ()
      | none => .error (.unexpectedModule m)

/-- A sequential Go loop whose body can return an error: run `body` on
each element in order and stop at the first error. -/
def seqCheck {α : Type} (body : α → Except VError Unit) : List α → Except VError Unit
  | [] => .ok ()
  | x :: xs =>
    match body x with
    | .error e => .error e
    | .ok _ => seqCheck body xs

/-- `checkNoUnexpectedFiles`: the sequential directory walk, stopping
at the first error. -/
def checkNoUnexpectedFiles (d : Database) (unesc : String → Option String)
    (files : List DirEntry) : Except VError Unit :=
  seqCheck (checkFileStep d unesc) files

/-- The running maximum of the entries' modified timestamps, as computed
by the `mod.After(wantModified)` fold in `checkInternalConsistency`
(zero time is `0`). -/
def maxModified (entries : List Entry) : Nat :=
  entries.foldl (fun w e => if w < e.modified then e.modified else w) 0

/-- The body of the inner loop of consistency sub-check 2: the entry
listed under a module must exist in the by-ID map and be structurally
identical (`reflect.DeepEqual`) to the copy found there. -/
def vulnStep (bID : List (String × Entry)) (module : String) (e : Entry) :
    Except VError Unit :=
  match alookup bID e.id with
  | none => .error (.noAdvisoryForID e.id module)
  | some byID =>
    if e = byID then .ok ()
    else .error (.inconsistentContents e.id)

/-- The inner loop of consistency sub-check 2 over a module's entry
list. -/
def checkModuleVulnList (bID : List (String × Entry)) (module : String)
    (l : List Entry) : Except VError Unit :=
  seqCheck (vulnStep bID module) l

/-- One iteration of the loop over `d.Index`: the module must have a
non-empty entry list, every listed entry must match its by-ID copy, and
the recorded modified timestamp must equal the running maximum. -/
def checkModule (bM : List (String × List Entry)) (bID : List (String × Entry))
    (module : String) (modified : Nat) : Except VError Unit :=
  match alookup bM module with
  | none => .error (.noModuleDir module)
  | some entries =>
    if entries.isEmpty then .error (.noModuleDir module)
    else
      match checkModuleVulnList bID module entries with
      | .error e => .error e
      | .ok _ =>
        if modified = maxModified entries then .ok ()
        else .error (.incorrectModified module (maxModified entries) modified)

/-- The loop over `d.Index` in `checkInternalConsistency`. -/
def checkIndexEntries (bM : List (String × List Entry)) (bID : List (String × Entry))
    (l : List (String × Nat)) : Except VError Unit :=
  seqCheck (fun p => checkModule bM bID p.1 p.2) l

/-- The body of the loop over `entry.Affected` in consistency
sub-check 3: the affected module must be a key of `EntriesByModule`
with a non-empty list containing an entry whose ID is the entry's own
ID. -/
def affStep (bM : List (String × List Entry)) (id : String) (a : Affected) :
    Except VError Unit :=
  match alookup bM a.pkg.name with
  | none => .error (.moduleNotFound a.pkg.name id)
  | some entries =>
    if entries.isEmpty then .error (.moduleNotFound a.pkg.name id)
    else if id ∈ entries.map (fun g => g.id) then .ok ()
    else .error (.missingEntryInModule id a.pkg.name)

/-- The loop over `entry.Affected` in consistency sub-check 3. -/
def checkAffectedList (bM : List (String × List Entry)) (id : String)
    (l : List Affected) : Except VError Unit :=
  seqCheck (affStep bM id) l

/-- The body of the loop over `entry.Aliases` in consistency
sub-check 3: the alias must be a key of `IDsByAlias` with a non-empty
ID list containing the entry's map key; the failure message
interpolates `entry.ID`. -/
def aliasStep (bA : List (String × List String)) (key eid : String) (al : String) :
    Except VError Unit :=
  match alookup bA al with
  | none => .error (.aliasNotFound al key)
  | some ids =>
    if ids.isEmpty then .error (.aliasNotFound al key)
    else if key ∈ ids then .ok ()
    else .error (.notListedAsAlias eid al)

/-- The loop over `entry.Aliases` in consistency sub-check 3. -/
def checkAliasList (bA : List (String × List String)) (key eid : String)
    (l : List String) : Except VError Unit :=
  seqCheck (aliasStep bA key eid) l

/-- One iteration of the loop over `d.EntriesByID`: the affected-module
loop runs first, then the alias loop. -/
def checkEntryRefs (bM : List (String × List Entry)) (bA : List (String × List String))
    (id : String) (e : Entry) : Except VError Unit :=
  match checkAffectedList bM id e.affected with
  | .error er => .error er
  | .ok _ => checkAliasList bA id e.id e.aliases

/-- The loop over `d.EntriesByID` in `checkInternalConsistency`. -/
def checkByIDEntries (bM : List (String × List Entry)) (bA : List (String × List String))
    (l : List (String × Entry)) : Except VError Unit :=
  seqCheck (fun p => checkEntryRefs bM bA p.1 p.2) l

/-- The body of the loop over one alias's ID list in consistency
sub-check 4: the listed ID must resolve to an entry whose alias list
contains the alias key. -/
def aliasIDStep (bID : List (String × Entry)) (al : String) (gid : String) :
    Except VError Unit :=
  match alookup bID gid with
  | none => .error (.noAdvisoryForAlias gid al)
  | some e =>
    if al ∈ e.aliases then .ok ()
    else .error (.missingAliasRef gid al)

/-- The loop over one alias's ID list in consistency sub-check 4. -/
def checkAliasIDList (bID : List (String × Entry)) (al : String)
    (l : List String) : Except VError Unit :=
  seqCheck (aliasIDStep bID al) l

/-- The loop over `d.IDsByAlias` in `checkInternalConsistency`. -/
def checkAliasEntries (bID : List (String × Entry))
    (l : List (String × List String)) : Except VError Unit :=
  seqCheck (fun p => checkAliasIDList bID p.1 p.2) l

/-- `checkInternalConsistency`: the length comparison followed by the
three loops, stopping at the first error. -/
def checkInternalConsistency (d : Database) : Except VError Unit :=
  if d.index.length ≠ d.entriesByModule.length then
    .error (.lengthMismatch d.index.length d.entriesByModule.length)
  else
    match checkIndexEntries d.entriesByModule d.entriesByID d.index with
    | .error e => .error e
    | .ok _ =>
      match checkByIDEntries d.entriesByModule d.idsByAlias d.entriesByID with
      | .error e => .error e
      | .ok _ => checkAliasEntries d.entriesByID d.idsByAlias

/-- `(*Database).validate`: the file-inventory pass, then the
cross-index pass. -/
def validate (d : Database) (unesc : String → Option String)
    (files : List DirEntry) : Except VError Unit :=
  match checkNoUnexpectedFiles d unesc files with
  | .error e => .error e
  | .ok _ => checkInternalConsistency d

/-! ### Version-range reducer (modelled from the spec)

`latestFixedVersion` lives in a normalizer file of this repository that
is not under src/ (only its test, `new_test.go`, is). Per the spec it
is a pure maximum-of-fixed-boundaries reducer over all events of all
ranges, under semantic-version ordering in which a pseudo-version
(prerelease embedding a source-control timestamp) compares by its
embedded timestamp. -/

/-- Is every character a decimal digit (and the list non-empty)? -/
def allDigits : List Char → Bool
  | [] => false
  | [c] => c.isDigit
  | c :: cs => c.isDigit && allDigits cs

/-- Decimal value of a digit list. -/
def digitsVal (cs : List Char) : Nat :=
  cs.foldl (fun acc c => acc * 10 + (c.toNat - 48)) 0

/-- Modelled from the spec: the comparison key of a version string.
The dotted numeric base maps to its (major, minor, patch) components; a
version with no prerelease part ranks above any prerelease of the same
base; a prerelease whose first segment is numeric (the pseudo-version
timestamp) ranks by that embedded timestamp. The key is compared
lexicographically. -/
def verKey (v : String) : List Nat :=
  match splitOnChar '-' v.data with
  | [] => [0, 0, 0, 1, 0]
  | base :: rest =>
    let nums := (splitOnChar '.' base).map
      (fun cs => if allDigits cs then digitsVal cs else 0)
    let a := nums.getD 0 0
    let b := nums.getD 1 0
    let c := nums.getD 2 0
    match rest with
    | [] => [a, b, c, 1, 0]
    | pre1 :: _ => [a, b, c, 0, if allDigits pre1 then digitsVal pre1 else 0]

/-- Lexicographic strict "greater than" on equal-shaped numeric keys
(a longer list beats its proper prefixes, as in semver comparison). -/
def lexGt : List Nat → List Nat → Bool
  | _ :: _, [] => true
  | [], _ => false
  | x :: xs, y :: ys =>
    if y < x then true
    else if x = y then lexGt xs ys
    else false

/-- Modelled from the spec: `v` is a strictly later version than `w`. -/
def verLater (v w : String) : Bool := lexGt (verKey v) (verKey w)

/-- All "fixed" boundaries across all events of all ranges (an absent
boundary is the empty string and is not collected). -/
def fixedsOf (ranges : List AffectsRange) : List String :=
  ((ranges.map (fun r => r.events)).flatten).filterMap
    (fun e => if e.fixed = "" then none else some e.fixed)

/-- The running best-so-far fold of the reducer: start from the empty
string, replace it by the first fixed boundary seen, and afterwards by
any strictly later one. -/
def pickLatest (acc : String) : List String → String
  | [] => acc
  | v :: vs => pickLatest (if acc = "" then v else if verLater v acc then v else acc) vs

/-- Modelled from the spec: `latestFixedVersion` returns the latest
"fixed" boundary across all events of all ranges, or the empty string
when there is none. -/
def latestFixedVersion (ranges : List AffectsRange) : String :=
  pickLatest "" (fixedsOf ranges)

/-! ### Entry normalizer (modelled from the spec)

`New` lives in the same missing normalizer file; only its test
(`TestNew` in `new_test.go`) is under src/. Per the spec it is a pure
function from a collection of entries to the three indexes, rejecting
duplicate IDs, listing under each module exactly the entries affecting
it (sorted by ID for reproducibility), recording per module the maximum
of its entries' modified timestamps, and inverting the alias lists. -/

/-- The construction error of the normalizer. -/
inductive NewError where
  | duplicateID
deriving DecidableEq

/-- The module paths affected by an entry. -/
def affectedModules (e : Entry) : List String :=
  e.affected.map (fun a => a.pkg.name)

/-- Insert an entry into a list sorted by ascending ID. -/
def insertByID (e : Entry) : List Entry → List Entry
  | [] => [e]
  | x :: xs => if e.id ≤ x.id then e :: x :: xs else x :: insertByID e xs

/-- Sort entries by ascending ID (insertion sort). -/
def sortByID (l : List Entry) : List Entry := l.foldr insertByID []

/-- All distinct module paths affected by any entry. -/
def modulesOf (entries : List Entry) : List String :=
  ((entries.map affectedModules).flatten).dedup

/-- The entries affecting module `m`, sorted by ID. -/
def entriesForModule (entries : List Entry) (m : String) : List Entry :=
  sortByID (entries.filter (fun e => m ∈ affectedModules e))

/-- All distinct aliases declared by any entry. -/
def aliasesOf (entries : List Entry) : List String :=
  ((entries.map (fun e => e.aliases)).flatten).dedup

/-- Modelled from the spec: the entry normalizer `New`. Fails with a
construction error when two input entries share an ID; otherwise builds
the module index (module path to maximum modified timestamp), the
per-module entry lists sorted by ID, the by-ID map, and the inverted
alias index with no empty-list entries. -/
def New (entries : List Entry) : Except NewError Database :=
  if (entries.map (fun e => e.id)).Nodup then
    .ok
      { index := (modulesOf entries).map
          (fun m => (m, maxModified (entriesForModule entries m)))
        entriesByModule := (modulesOf entries).map
          (fun m => (m, entriesForModule entries m))
        entriesByID := entries.map (fun e => (e.id, e))
        idsByAlias := (aliasesOf entries).map
          (fun a => (a, (entries.filter (fun e => a ∈ e.aliases)).map (fun e => e.id))) }
  else .error .duplicateID

/-! ### Basic lemmas about the loop combinator and map lookups -/

theorem seqCheck_ok_iff {α : Type} (body : α → Except VError Unit) (l : List α) :
    seqCheck body l = .ok () ↔ ∀ x ∈ l, body x = .ok () := by
  induction l with
  | nil => simp [seqCheck]
  | cons x xs ih =>
    cases h : body x with
    | error e =>
      simp only [seqCheck, h, List.forall_mem_cons]
      constructor
      · intro hc
        exact absurd hc (by simp)
      · intro hall
        exact absurd hall.1 (by simp [h])
    | ok u =>
      cases u
      simp only [seqCheck, h, List.forall_mem_cons, ih]
      tauto

theorem seqCheck_append_ok {α : Type} (body : α → Except VError Unit)
    (l₁ l₂ : List α) (h : seqCheck body l₁ = .ok ()) :
    seqCheck body (l₁ ++ l₂) = seqCheck body l₂ := by
  induction l₁ with
  | nil => simp
  | cons x xs ih =>
    cases hx : body x with
    | error e => simp [seqCheck, hx] at h
    | ok u =>
      cases u
      simp only [seqCheck, hx] at h ⊢
      exact ih h

theorem seqCheck_first_error {α : Type} (body : α → Except VError Unit)
    (l₁ l₂ : List α) (x : α) (e : VError)
    (h₁ : seqCheck body l₁ = .ok ()) (hx : body x = .error e) :
    seqCheck body (l₁ ++ x :: l₂) = .error e := by
  rw [seqCheck_append_ok body l₁ (x :: l₂) h₁]
  simp [seqCheck, hx]

theorem alookup_map_fn {β : Type} (f : String → β) (M : List String) (k : String) :
    alookup (M.map (fun m => (m, f m))) k = if k ∈ M then some (f k) else none := by
  induction M with
  | nil => simp [alookup]
  | cons m ms ih =>
    by_cases hk : k = m
    · subst hk
      simp [alookup]
    · simp only [List.map_cons, alookup, if_neg hk, ih]
      by_cases hm : k ∈ ms
      · simp [hm]
      · simp [hm, hk]

theorem alookup_graph (l : List Entry) (e : Entry)
    (hnd : (l.map (fun x => x.id)).Nodup) (he : e ∈ l) :
    alookup (l.map (fun x => (x.id, x))) e.id = some e := by
  induction l with
  | nil => simp at he
  | cons x xs ih =>
    simp only [List.map_cons, List.nodup_cons] at hnd
    rcases List.mem_cons.mp he with rfl | hmem
    · simp [alookup]
    · have hne : e.id ≠ x.id := by
        intro hcontra
        exact hnd.1 (hcontra ▸ List.mem_map_of_mem (fun y => y.id) hmem)
      simp only [List.map_cons, alookup, if_neg hne]
      exact ih hnd.2 hmem

theorem alookup_mem {β : Type} (l : List (String × β)) (k : String) (v : β)
    (h : alookup l k = some v) : (k, v) ∈ l := by
  induction l with
  | nil => simp [alookup] at h
  | cons p ps ih =>
    obtain ⟨pk, pv⟩ := p
    by_cases hk : k = pk
    · subst hk
      have h2 : pv = v := by simpa [alookup] using h
      subst h2
      exact List.mem_cons_self _ _
    · simp only [alookup, if_neg hk] at h
      exact List.mem_cons_of_mem _ (ih h)

/-! ### Lemmas about `maxModified` -/

theorem foldlMax_ge_acc (l : List Entry) (acc : Nat) :
    acc ≤ l.foldl (fun w e => if w < e.modified then e.modified else w) acc := by
  induction l generalizing acc with
  | nil => simp
  | cons x xs ih =>
    simp only [List.foldl_cons]
    refine le_trans ?_ (ih _)
    split <;> omega

theorem foldlMax_ub (l : List Entry) (acc : Nat) (e : Entry) (he : e ∈ l) :
    e.modified ≤ l.foldl (fun w e => if w < e.modified then e.modified else w) acc := by
  induction l generalizing acc with
  | nil => simp at he
  | cons x xs ih =>
    simp only [List.foldl_cons]
    rcases List.mem_cons.mp he with rfl | hmem
    · refine le_trans ?_ (foldlMax_ge_acc xs _)
      split <;> omega
    · exact ih _ hmem

theorem foldlMax_attained (l : List Entry) (acc : Nat) :
    l.foldl (fun w e => if w < e.modified then e.modified else w) acc = acc ∨
      ∃ e ∈ l, l.foldl (fun w e => if w < e.modified then e.modified else w) acc
        = e.modified := by
  induction l generalizing acc with
  | nil => simp
  | cons x xs ih =>
    simp only [List.foldl_cons]
    by_cases hx : acc < x.modified
    · rw [if_pos hx]
      rcases ih x.modified with h | ⟨e, he, h⟩
      · exact Or.inr ⟨x, List.mem_cons_self _ _, h⟩
      · exact Or.inr ⟨e, List.mem_cons_of_mem _ he, h⟩
    · rw [if_neg hx]
      rcases ih acc with h | ⟨e, he, h⟩
      · exact Or.inl h
      · exact Or.inr ⟨e, List.mem_cons_of_mem _ he, h⟩

theorem maxModified_ub (l : List Entry) (e : Entry) (he : e ∈ l) :
    e.modified ≤ maxModified l :=
  foldlMax_ub l 0 e he

theorem maxModified_attained (l : List Entry) (hne : l ≠ []) :
    ∃ e ∈ l, e.modified = maxModified l := by
  rcases foldlMax_attained l 0 with h | ⟨e, he, h⟩
  · obtain ⟨x, xs, rfl⟩ := List.exists_cons_of_ne_nil hne
    have h' : maxModified (x :: xs) = 0 := h
    have hub := maxModified_ub (x :: xs) x (List.mem_cons_self _ _)
    exact ⟨x, List.mem_cons_self _ _, by omega⟩
  · exact ⟨e, he, h.symm⟩

/-! ### Characterizations of the consistency sub-checks -/

theorem vulnStep_ok_iff (bID : List (String × Entry)) (module : String) (e : Entry) :
    vulnStep bID module e = .ok () ↔ alookup bID e.id = some e := by
  unfold vulnStep
  cases h : alookup bID e.id with
  | none => simp
  | some byID =>
    by_cases hb : e = byID
    · subst hb
      simp
    · simp [if_neg hb]
      exact fun hcontra => hb hcontra.symm

theorem affStep_ok_iff (bM : List (String × List Entry)) (id : String) (a : Affected) :
    affStep bM id a = .ok () ↔
      ∃ es, alookup bM a.pkg.name = some es ∧ es ≠ [] ∧
        id ∈ es.map (fun g => g.id) := by
  unfold affStep
  cases h : alookup bM a.pkg.name with
  | none => simp
  | some es =>
    cases es with
    | nil => simp
    | cons x xs =>
      simp only [List.isEmpty_cons, Bool.false_eq_true, if_false]
      constructor
      · intro hok
        by_cases hid : id ∈ ((x :: xs).map (fun g => g.id))
        · exact ⟨x :: xs, rfl, by simp, hid⟩
        · rw [if_neg hid] at hok
          exact absurd hok (by simp)
      · rintro ⟨es', hes', -, hmem⟩
        injection hes' with h2
        subst h2
        rw [if_pos hmem]

theorem aliasStep_ok_iff (bA : List (String × List String)) (key eid al : String) :
    aliasStep bA key eid al = .ok () ↔
      ∃ ids, alookup bA al = some ids ∧ ids ≠ [] ∧ key ∈ ids := by
  unfold aliasStep
  cases h : alookup bA al with
  | none => simp
  | some ids =>
    cases ids with
    | nil => simp
    | cons x xs =>
      by_cases hid : key ∈ x :: xs
      · simp [hid]
      · simp [hid]

theorem aliasIDStep_ok_iff (bID : List (String × Entry)) (al gid : String) :
    aliasIDStep bID al gid = .ok () ↔
      ∃ e, alookup bID gid = some e ∧ al ∈ e.aliases := by
  unfold aliasIDStep
  cases h : alookup bID gid with
  | none => simp
  | some e =>
    by_cases ha : al ∈ e.aliases
    · simp [ha]
    · simp [ha]

theorem checkModule_ok_iff (bM : List (String × List Entry))
    (bID : List (String × Entry)) (m : String) (t : Nat) :
    checkModule bM bID m t = .ok () ↔
      ∃ es, alookup bM m = some es ∧ es ≠ [] ∧
        (∀ e ∈ es, alookup bID e.id = some e) ∧ t = maxModified es := by
  unfold checkModule
  cases h : alookup bM m with
  | none => simp
  | some es =>
    cases es with
    | nil => simp
    | cons x xs =>
      simp only [List.isEmpty_cons, Bool.false_eq_true, if_false]
      cases hv : checkModuleVulnList bID m (x :: xs) with
      | error e =>
        constructor
        · intro hc
          exact absurd hc (by simp)
        · rintro ⟨es', hes', -, hall', -⟩
          injection hes' with h2
          subst h2
          have hok : checkModuleVulnList bID m (x :: xs) = .ok () := by
            unfold checkModuleVulnList
            rw [seqCheck_ok_iff]
            intro y hy
            rw [vulnStep_ok_iff]
            exact hall' y hy
          rw [hok] at hv
          exact absurd hv (by simp)
      | ok u =>
        cases u
        have hall : ∀ e ∈ x :: xs, alookup bID e.id = some e := by
          unfold checkModuleVulnList at hv
          rw [seqCheck_ok_iff] at hv
          intro y hy
          rw [← vulnStep_ok_iff bID m y]
          exact hv y hy
        constructor
        · intro hok
          by_cases ht : t = maxModified (x :: xs)
          · exact ⟨x :: xs, rfl, by simp, hall, ht⟩
          · rw [if_neg ht] at hok
            exact absurd hok (by simp)
        · rintro ⟨es', hes', -, -, ht'⟩
          injection hes' with h2
          subst h2
          rw [if_pos ht']

theorem checkEntryRefs_ok_iff (bM : List (String × List Entry))
    (bA : List (String × List String)) (id : String) (e : Entry) :
    checkEntryRefs bM bA id e = .ok () ↔
      checkAffectedList bM id e.affected = .ok () ∧
        checkAliasList bA id e.id e.aliases = .ok () := by
  unfold checkEntryRefs
  cases h : checkAffectedList bM id e.affected with
  | error er => simp [h]
  | ok u =>
    cases u
    simp [h]

theorem checkInternalConsistency_ok_iff (d : Database) :
    checkInternalConsistency d = .ok () ↔
      d.index.length = d.entriesByModule.length ∧
        checkIndexEntries d.entriesByModule d.entriesByID d.index = .ok () ∧
        checkByIDEntries d.entriesByModule d.idsByAlias d.entriesByID = .ok () ∧
        checkAliasEntries d.entriesByID d.idsByAlias = .ok () := by
  unfold checkInternalConsistency
  by_cases hl : d.index.length = d.entriesByModule.length
  · rw [if_neg (fun hc => hc hl)]
    cases h1 : checkIndexEntries d.entriesByModule d.entriesByID d.index with
    | error e =>
      constructor
      · intro hc
        exact absurd hc (by simp)
      · rintro ⟨-, h1', -, -⟩
        exact absurd h1' (by simp)
    | ok u =>
      cases u
      cases h2 : checkByIDEntries d.entriesByModule d.idsByAlias d.entriesByID with
      | error e =>
        constructor
        · intro hc
          exact absurd hc (by simp)
        · rintro ⟨-, -, h2', -⟩
          exact absurd h2' (by simp)
      | ok v =>
        cases v
        simp [hl]
  · rw [if_pos hl]
    constructor
    · intro hc
      exact absurd hc (by simp)
    · rintro ⟨hl', -⟩
      exact absurd hl' hl

/-! ### Lemmas about the normalizer's building blocks -/

theorem insertByID_perm (e : Entry) (l : List Entry) :
    List.Perm (insertByID e l) (e :: l) := by
  induction l with
  | nil => exact List.Perm.refl _
  | cons x xs ih =>
    unfold insertByID
    by_cases hle : e.id ≤ x.id
    · rw [if_pos hle]
    · rw [if_neg hle]
      exact List.Perm.trans (List.Perm.cons x ih) (List.Perm.swap e x xs)

theorem sortByID_perm (l : List Entry) : List.Perm (sortByID l) l := by
  induction l with
  | nil => exact List.Perm.refl _
  | cons x xs ih =>
    unfold sortByID at ih ⊢
    rw [List.foldr_cons]
    exact List.Perm.trans (insertByID_perm x _) (List.Perm.cons x ih)

theorem mem_sortByID (x : Entry) (l : List Entry) :
    x ∈ sortByID l ↔ x ∈ l :=
  (sortByID_perm l).mem_iff

theorem sortByID_ne_nil (l : List Entry) (hne : l ≠ []) : sortByID l ≠ [] := by
  intro hc
  have := (sortByID_perm l).length_eq
  rw [hc] at this
  exact hne (List.eq_nil_of_length_eq_zero this.symm)

theorem mem_modulesOf (entries : List Entry) (m : String) :
    m ∈ modulesOf entries ↔ ∃ e ∈ entries, m ∈ affectedModules e := by
  simp [modulesOf, List.mem_flatten]

theorem mem_aliasesOf (entries : List Entry) (a : String) :
    a ∈ aliasesOf entries ↔ ∃ e ∈ entries, a ∈ e.aliases := by
  simp [aliasesOf, List.mem_flatten]

theorem mem_entriesForModule (entries : List Entry) (m : String) (x : Entry) :
    x ∈ entriesForModule entries m ↔ x ∈ entries ∧ m ∈ affectedModules x := by
  rw [entriesForModule, mem_sortByID, List.mem_filter]
  simp

theorem entriesForModule_ne_nil (entries : List Entry) (m : String)
    (hm : m ∈ modulesOf entries) : entriesForModule entries m ≠ [] := by
  rw [mem_modulesOf] at hm
  obtain ⟨e, he, hae⟩ := hm
  refine sortByID_ne_nil _ ?_
  intro hc
  have : e ∈ List.filter (fun e => decide (m ∈ affectedModules e)) entries := by
    rw [List.mem_filter]
    simp [he, hae]
  rw [hc] at this
  simp at this

/-! ### Lemmas about the version ordering and the reducer -/

theorem lexGt_irrefl (x : List Nat) : lexGt x x = false := by
  induction x with
  | nil => rfl
  | cons a xs ih => simp [lexGt, ih]

theorem lexGt_trans (x y z : List Nat) (hxy : lexGt x y = true)
    (hyz : lexGt y z = true) : lexGt x z = true := by
  induction x generalizing y z with
  | nil =>
    cases y with
    | nil => simp [lexGt] at hxy
    | cons b ys => simp [lexGt] at hxy
  | cons a xs ih =>
    cases y with
    | nil => simp [lexGt] at hyz
    | cons b ys =>
      cases z with
      | nil => rfl
      | cons c zs =>
        simp only [lexGt] at hxy hyz ⊢
        split at hxy
        · rename_i hba
          split at hyz
          · rename_i hcb
            rw [if_pos (by omega)]
          · split at hyz
            · rename_i hbc
              rw [if_pos (by omega)]
            · exact absurd hyz (by simp)
        · split at hxy
          · rename_i hab
            split at hyz
            · rename_i hcb
              rw [if_pos (by omega)]
            · split at hyz
              · rename_i hbc
                rw [if_neg (by omega), if_pos (by omega)]
                exact ih ys zs hxy hyz
              · exact absurd hyz (by simp)
          · exact absurd hxy (by simp)

theorem lexGt_false_trans (x y z : List Nat) (hxy : lexGt x y = false)
    (hyz : lexGt y z = false) : lexGt x z = false := by
  induction x generalizing y z with
  | nil =>
    cases z with
    | nil => rfl
    | cons c zs => rfl
  | cons a xs ih =>
    cases y with
    | nil => simp [lexGt] at hxy
    | cons b ys =>
      cases z with
      | nil => simp [lexGt] at hyz
      | cons c zs =>
        simp only [lexGt] at hxy hyz ⊢
        split at hxy
        · exact absurd hxy (by simp)
        · split at hyz
          · exact absurd hyz (by simp)
          · rename_i hab hbc
            split at hxy
            · split at hyz
              · rename_i h1 h2
                rw [if_neg (by omega), if_pos (by omega)]
                exact ih ys zs hxy hyz
              · rename_i h1 h2
                rw [if_neg (by omega), if_neg (by omega)]
            · rw [if_neg (by omega), if_neg (by omega)]

theorem verLater_irrefl (v : String) : verLater v v = false :=
  lexGt_irrefl (verKey v)

theorem verLater_trans (u v w : String) (h1 : verLater u v = true)
    (h2 : verLater v w = true) : verLater u w = true :=
  lexGt_trans _ _ _ h1 h2

theorem verLater_false_trans (u v w : String) (h1 : verLater u v = false)
    (h2 : verLater v w = false) : verLater u w = false :=
  lexGt_false_trans _ _ _ h1 h2

/-- The invariant of the reducer's fold: starting from a non-empty
best-so-far, the result is drawn from the accumulator or the list, and
neither the accumulator nor any list element is strictly later than
it. -/
theorem pickLatest_spec (vs : List String) (acc : String) (hacc : acc ≠ "")
    (hvs : "" ∉ vs) :
    (pickLatest acc vs = acc ∨ pickLatest acc vs ∈ vs) ∧
      verLater acc (pickLatest acc vs) = false ∧
      ∀ v ∈ vs, verLater v (pickLatest acc vs) = false := by
  induction vs generalizing acc with
  | nil =>
    refine ⟨Or.inl rfl, verLater_irrefl acc, ?_⟩
    intro v hv
    simp at hv
  | cons v vs ih =>
    have hvne : v ≠ "" := by
      intro hc
      exact hvs (hc ▸ List.mem_cons_self v vs)
    have hvs' : "" ∉ vs := fun hc => hvs (List.mem_cons_of_mem v hc)
    unfold pickLatest
    rw [if_neg hacc]
    by_cases hv : verLater v acc = true
    · rw [if_pos hv]
      obtain ⟨hmem, hbound, hall⟩ := ih v hvne hvs'
      refine ⟨?_, ?_, ?_⟩
      · rcases hmem with h | h
        · exact Or.inr (by rw [h]; exact List.mem_cons_self v vs)
        · exact Or.inr (List.mem_cons_of_mem v h)
      · by_cases hc : verLater acc (pickLatest v vs) = true
        · exact absurd (verLater_trans v acc _ hv hc) (by simp [hbound])
        · exact Bool.not_eq_true _ ▸ hc
      · intro w hw
        rcases List.mem_cons.mp hw with rfl | hw'
        · exact hbound
        · exact hall w hw'
    · rw [if_neg hv]
      obtain ⟨hmem, hbound, hall⟩ := ih acc hacc hvs'
      refine ⟨?_, hbound, ?_⟩
      · rcases hmem with h | h
        · exact Or.inl h
        · exact Or.inr (List.mem_cons_of_mem v h)
      · intro w hw
        rcases List.mem_cons.mp hw with rfl | hw'
        · exact verLater_false_trans w acc _ (Bool.not_eq_true _ ▸ hv) hbound
        · exact hall w hw'

theorem empty_not_mem_fixedsOf (ranges : List AffectsRange) :
    "" ∉ fixedsOf ranges := by
  intro hc
  rw [fixedsOf, List.mem_filterMap] at hc
  obtain ⟨e, -, he⟩ := hc
  by_cases hf : e.fixed = ""
  · rw [if_pos hf] at he
    exact absurd he (by simp)
  · rw [if_neg hf] at he
    exact hf (Option.some_inj.mp he)

theorem latestFixedVersion_of_no_fixed (ranges : List AffectsRange)
    (h : fixedsOf ranges = []) : latestFixedVersion ranges = "" := by
  rw [latestFixedVersion, h]
  rfl

theorem latestFixedVersion_spec (ranges : List AffectsRange)
    (hne : fixedsOf ranges ≠ []) :
    latestFixedVersion ranges ∈ fixedsOf ranges ∧
      ∀ v ∈ fixedsOf ranges, verLater v (latestFixedVersion ranges) = false := by
  obtain ⟨x, rest, hfix⟩ := List.exists_cons_of_ne_nil hne
  have hnm := empty_not_mem_fixedsOf ranges
  rw [hfix] at hnm
  have hx : x ≠ "" := by
    intro hc
    exact hnm (hc ▸ List.mem_cons_self x rest)
  have hrest : "" ∉ rest := fun hc => hnm (List.mem_cons_of_mem x hc)
  have hstart : latestFixedVersion ranges = pickLatest x rest := by
    rw [latestFixedVersion, hfix]
    show pickLatest (if "" = "" then x else if verLater x "" = true then x else "") rest
      = pickLatest x rest
    rw [if_pos rfl]
  obtain ⟨hmem, hbound, hall⟩ := pickLatest_spec rest x hx hrest
  rw [hfix, hstart]
  refine ⟨?_, ?_⟩
  · rcases hmem with h | h
    · rw [h]
      exact List.mem_cons_self x rest
    · exact List.mem_cons_of_mem x h
  · intro v hv
    rcases List.mem_cons.mp hv with rfl | hv'
    · exact hbound
    · exact hall v hv'

theorem latestFixedVersion_eq_of_greatest (ranges : List AffectsRange)
    (x : String) (hx : x ∈ fixedsOf ranges)
    (hgt : ∀ y ∈ fixedsOf ranges, y ≠ x → verLater x y = true) :
    latestFixedVersion ranges = x := by
  have hne : fixedsOf ranges ≠ [] := fun hc => by
    rw [hc] at hx
    simp at hx
  obtain ⟨hmem, hub⟩ := latestFixedVersion_spec ranges hne
  by_contra hc
  have h1 := hgt _ hmem hc
  have h2 := hub x hx
  rw [h1] at h2
  exact absurd h2 (by simp)

theorem validate_ok_iff (d : Database) (unesc : String → Option String)
    (files : List DirEntry) :
    validate d unesc files = .ok () ↔
      checkNoUnexpectedFiles d unesc files = .ok () ∧
        checkInternalConsistency d = .ok () := by
  unfold validate
  cases h : checkNoUnexpectedFiles d unesc files with
  | error e => simp [h]
  | ok u =>
    cases u
    simp [h]

theorem checkInternalConsistency_error_loop1 (d : Database) (e : VError)
    (hlen : d.index.length = d.entriesByModule.length)
    (h : checkIndexEntries d.entriesByModule d.entriesByID d.index = .error e) :
    checkInternalConsistency d = .error e := by
  unfold checkInternalConsistency
  rw [if_neg (fun hc => hc hlen), h]

/-! ### Concrete example data (used by witnesses and counterexamples) -/

/-- A concrete entry affecting module "stdlib". -/
def eA : Entry :=
  { id := "GO-1999-0001"
    published := 1
    modified := 5
    aliases := ["CVE-1999-1111"]
    details := "d1"
    affected := [{ pkg := { name := "stdlib", ecosystem := "Go" }
                   ranges := [⟨"SEMVER", [⟨"0", ""⟩, ⟨"", "1.1.0"⟩]⟩]
                   databaseSpecificURL := "u1"
                   ecosystemImports := [] }]
    references := [⟨"FIX", "https://example.com/cl/123"⟩] }

/-- A concrete entry affecting module "example.com/module". -/
def eB : Entry :=
  { id := "GO-2000-0002"
    published := 2
    modified := 7
    aliases := ["CVE-1999-2222", "GHSA-xxxx-yyyy-zzzz"]
    details := "d2"
    affected := [{ pkg := { name := "example.com/module", ecosystem := "Go" }
                   ranges := [⟨"SEMVER", [⟨"0", ""⟩, ⟨"", "1.2.0"⟩]⟩]
                   databaseSpecificURL := "u2"
                   ecosystemImports := [] }]
    references := [⟨"FIX", "https://example.com/cl/543"⟩] }

/-- A concrete, internally consistent database over `eA` and `eB`. -/
def dEx : Database :=
  { index := [("stdlib", 5), ("example.com/module", 7)]
    entriesByModule := [("stdlib", [eA]), ("example.com/module", [eB])]
    entriesByID := [("GO-1999-0001", eA), ("GO-2000-0002", eB)]
    idsByAlias := [("CVE-1999-1111", ["GO-1999-0001"]),
                   ("CVE-1999-2222", ["GO-2000-0002"]),
                   ("GHSA-xxxx-yyyy-zzzz", ["GO-2000-0002"])] }

/-- The tampering scenario of the spec: overwrite module `m`'s recorded
snapshot modified timestamp in the module index with `t'`, leaving the
on-disk entry lists untouched. -/
def setIndexModified (d : Database) (m : String) (t' : Nat) : Database :=
  { d with index := d.index.map (fun p => if p.1 = m then (m, t') else p) }

theorem checkModule_bad_timestamp (bM : List (String × List Entry))
    (bID : List (String × Entry)) (m : String) (t' : Nat) (es : List Entry)
    (hes : alookup bM m = some es) (hne : es ≠ [])
    (hids : ∀ e ∈ es, alookup bID e.id = some e)
    (ht' : t' ≠ maxModified es) :
    checkModule bM bID m t' = .error (.incorrectModified m (maxModified es) t') := by
  unfold checkModule
  rw [hes]
  obtain ⟨x, xs, rfl⟩ := List.exists_cons_of_ne_nil hne
  simp only [List.isEmpty_cons, Bool.false_eq_true, if_false]
  have hok : checkModuleVulnList bID m (x :: xs) = .ok () := by
    unfold checkModuleVulnList
    rw [seqCheck_ok_iff]
    intro y hy
    rw [vulnStep_ok_iff]
    exact hids y hy
  rw [hok, if_neg ht']

theorem mutateLoop_error (bM : List (String × List Entry)) (bID : List (String × Entry))
    (l : List (String × Nat)) (m : String) (t' : Nat) (es : List Entry)
    (hall : ∀ p ∈ l, checkModule bM bID p.1 p.2 = .ok ())
    (hmem : ∃ t, (m, t) ∈ l)
    (hes : alookup bM m = some es) (hne : es ≠ [])
    (hids : ∀ e ∈ es, alookup bID e.id = some e)
    (ht' : t' ≠ maxModified es) :
    checkIndexEntries bM bID (l.map (fun p => if p.1 = m then (m, t') else p)) =
      .error (.incorrectModified m (maxModified es) t') := by
  induction l with
  | nil =>
    obtain ⟨t, ht⟩ := hmem
    simp at ht
  | cons p ps ih =>
    unfold checkIndexEntries
    rw [List.map_cons]
    by_cases hp : p.1 = m
    · rw [if_pos hp]
      have hstep := checkModule_bad_timestamp bM bID m t' es hes hne hids ht'
      unfold seqCheck
      rw [hstep]
    · rw [if_neg hp]
      have hhead := hall p (List.mem_cons_self p ps)
      unfold seqCheck
      rw [hhead]
      have hmem' : ∃ t, (m, t) ∈ ps := by
        obtain ⟨t, ht⟩ := hmem
        rcases List.mem_cons.mp ht with heq | hmem''
        · exact absurd (congrArg Prod.fst heq.symm) hp
        · exact ⟨t, hmem''⟩
      exact ih (fun q hq => hall q (List.mem_cons_of_mem p hq)) hmem'

/-! ### The claims -/

/-- C1: in every database accepted by the consistency check, each module
in the module index records exactly the maximum of its listed entries'
modified timestamps (the maximum is attained and bounds every entry);
and overwriting one module's recorded timestamp with any different
value makes the check fail with the timestamp-mismatch error
identifying that module. -/
theorem claimC1 (d : Database) (hok : checkInternalConsistency d = .ok ()) :
    (∀ m t, (m, t) ∈ d.index →
      ∃ es, alookup d.entriesByModule m = some es ∧
        (∃ e ∈ es, e.modified = t) ∧ ∀ e ∈ es, e.modified ≤ t) ∧
    (∀ m t t', (m, t) ∈ d.index → t' ≠ t →
      checkInternalConsistency (setIndexModified d m t') =
        .error (.incorrectModified m t t')) := by
  rw [checkInternalConsistency_ok_iff] at hok
  obtain ⟨hlen, h1, -, -⟩ := hok
  unfold checkIndexEntries at h1
  rw [seqCheck_ok_iff] at h1
  have h1' : ∀ m t, (m, t) ∈ d.index →
      checkModule d.entriesByModule d.entriesByID m t = .ok () :=
    fun m t h => h1 (m, t) h
  constructor
  · intro m t hmt
    have hm := h1' m t hmt
    rw [checkModule_ok_iff] at hm
    obtain ⟨es, hes, hne, -, ht⟩ := hm
    refine ⟨es, hes, ?_, ?_⟩
    · obtain ⟨e, he, hemod⟩ := maxModified_attained es hne
      exact ⟨e, he, hemod.trans ht.symm⟩
    · intro e he
      rw [ht]
      exact maxModified_ub es e he
  · intro m t t' hmt hne'
    have hm := h1' m t hmt
    rw [checkModule_ok_iff] at hm
    obtain ⟨es, hes, hne, hids, ht⟩ := hm
    have herr := mutateLoop_error d.entriesByModule d.entriesByID d.index m t' es
      (fun p hp => h1 p hp) ⟨t, hmt⟩ hes hne hids (by rw [← ht]; exact hne')
    have hres := checkInternalConsistency_error_loop1 (setIndexModified d m t')
      (.incorrectModified m (maxModified es) t')
      (by simp [setIndexModified, hlen])
      (by simpa [setIndexModified, checkIndexEntries] using herr)
    rw [← ht] at hres
    exact hres

/-- Witness for C1 at the concrete database `dEx` and module "stdlib". -/
theorem claimC1_witness :
    checkInternalConsistency dEx = .ok () ∧
      (∃ es, alookup dEx.entriesByModule "stdlib" = some es ∧
        (∃ e ∈ es, e.modified = 5) ∧ ∀ e ∈ es, e.modified ≤ 5) ∧
      checkInternalConsistency (setIndexModified dEx "stdlib" 9) =
        .error (.incorrectModified "stdlib" 5 9) := by
  have hok : checkInternalConsistency dEx = .ok () := rfl
  refine ⟨hok, ?_, ?_⟩
  · exact (claimC1 dEx hok).1 "stdlib" 5 (by simp [dEx])
  · exact (claimC1 dEx hok).2 "stdlib" 5 9 (by simp [dEx]) (by omega)

/-- C2: in every database accepted by the consistency check, each entry
listed under a module in `EntriesByModule` is found again by looking up
its ID in `EntriesByID`, and the copy found there is structurally equal
to it; any difference between the two copies makes the check fail. -/
theorem claimC2 (d : Database) (hok : checkInternalConsistency d = .ok ()) :
    (∀ m t es, (m, t) ∈ d.index → alookup d.entriesByModule m = some es →
      ∀ e ∈ es, alookup d.entriesByID e.id = some e) ∧
    (∀ m t es e e', (m, t) ∈ d.index → alookup d.entriesByModule m = some es →
      e ∈ es → alookup d.entriesByID e.id = some e' → e' ≠ e → False) := by
  rw [checkInternalConsistency_ok_iff] at hok
  obtain ⟨-, h1, -, -⟩ := hok
  unfold checkIndexEntries at h1
  rw [seqCheck_ok_iff] at h1
  have h1' : ∀ m t, (m, t) ∈ d.index →
      checkModule d.entriesByModule d.entriesByID m t = .ok () :=
    fun m t h => h1 (m, t) h
  have main : ∀ m t es, (m, t) ∈ d.index →
      alookup d.entriesByModule m = some es →
      ∀ e ∈ es, alookup d.entriesByID e.id = some e := by
    intro m t es hmt hes e he
    have hm := h1' m t hmt
    rw [checkModule_ok_iff] at hm
    obtain ⟨es', hes', -, hids, -⟩ := hm
    rw [hes] at hes'
    injection hes' with h2
    subst h2
    exact hids e he
  refine ⟨main, ?_⟩
  intro m t es e e' hmt hes he he' hne
  have := main m t es hmt hes e he
  rw [this] at he'
  exact hne (Option.some_inj.mp he').symm

/-- Witness for C2 at the concrete database `dEx`. -/
theorem claimC2_witness :
    checkInternalConsistency dEx = .ok () ∧
      alookup dEx.entriesByID eA.id = some eA := by
  have hok : checkInternalConsistency dEx = .ok () := rfl
  refine ⟨hok, ?_⟩
  exact (claimC2 dEx hok).1 "stdlib" 5 [eA] (by simp [dEx]) rfl eA
    (List.mem_cons_self eA [])

/-- C5: the consistency check passes only if the alias relation is
bidirectional: every alias of every by-ID entry maps in the alias index
to an ID list containing that entry's key, and every ID listed under an
alias resolves to an entry whose alias list contains the alias. -/
theorem claimC5 (d : Database) (hok : checkInternalConsistency d = .ok ()) :
    (∀ id e, (id, e) ∈ d.entriesByID → ∀ al ∈ e.aliases,
      ∃ ids, alookup d.idsByAlias al = some ids ∧ id ∈ ids) ∧
    (∀ al ids, (al, ids) ∈ d.idsByAlias → ∀ id ∈ ids,
      ∃ e, alookup d.entriesByID id = some e ∧ al ∈ e.aliases) := by
  rw [checkInternalConsistency_ok_iff] at hok
  obtain ⟨-, -, h2, h3⟩ := hok
  constructor
  · unfold checkByIDEntries at h2
    rw [seqCheck_ok_iff] at h2
    have h2' : ∀ id e, (id, e) ∈ d.entriesByID →
        checkEntryRefs d.entriesByModule d.idsByAlias id e = .ok () :=
      fun id e h => h2 (id, e) h
    intro id e hmem al hal
    have := (checkEntryRefs_ok_iff _ _ _ _).mp (h2' id e hmem)
    obtain ⟨-, ha⟩ := this
    unfold checkAliasList at ha
    rw [seqCheck_ok_iff] at ha
    have := (aliasStep_ok_iff _ _ _ _).mp (ha al hal)
    obtain ⟨ids, hids, -, hkey⟩ := this
    exact ⟨ids, hids, hkey⟩
  · unfold checkAliasEntries at h3
    rw [seqCheck_ok_iff] at h3
    have h3' : ∀ al ids, (al, ids) ∈ d.idsByAlias →
        checkAliasIDList d.entriesByID al ids = .ok () :=
      fun al ids h => h3 (al, ids) h
    intro al ids hmem id hid
    have ha := h3' al ids hmem
    unfold checkAliasIDList at ha
    rw [seqCheck_ok_iff] at ha
    exact (aliasIDStep_ok_iff _ _ _).mp (ha id hid)

/-- Witness for C5 at the concrete database `dEx`. -/
theorem claimC5_witness :
    checkInternalConsistency dEx = .ok () ∧
      (∃ ids, alookup dEx.idsByAlias "CVE-1999-2222" = some ids ∧
        "GO-2000-0002" ∈ ids) ∧
      (∃ e, alookup dEx.entriesByID "GO-2000-0002" = some e ∧
        "GHSA-xxxx-yyyy-zzzz" ∈ e.aliases) := by
  have hok : checkInternalConsistency dEx = .ok () := rfl
  refine ⟨hok, ?_, ?_⟩
  · exact (claimC5 dEx hok).1 "GO-2000-0002" eB (by simp [dEx])
      "CVE-1999-2222" (by simp [eB])
  · exact (claimC5 dEx hok).2 "GHSA-xxxx-yyyy-zzzz" ["GO-2000-0002"]
      (by simp [dEx]) "GO-2000-0002" (by simp)

/-- A database whose module index lists module "m" and whose
`EntriesByModule` has the key "m" bound to an empty list. -/
def dEmptyModule : Database :=
  { index := [("m", 0)]
    entriesByModule := [("m", [])]
    entriesByID := []
    idsByAlias := [] }

/-- A concrete entry affecting module "m" with a single alias. -/
def eC : Entry :=
  { id := "GO-1"
    published := 1
    modified := 5
    aliases := ["alias-a"]
    details := "d3"
    affected := [{ pkg := { name := "m", ecosystem := "Go" }
                   ranges := []
                   databaseSpecificURL := "u3"
                   ecosystemImports := [] }]
    references := [] }

/-- A database that is consistent except that the alias index binds the
key "alias-a" to an empty ID list. -/
def dEmptyAlias : Database :=
  { index := [("m", 5)]
    entriesByModule := [("m", [eC])]
    entriesByID := [("GO-1", eC)]
    idsByAlias := [("alias-a", [])] }

/-- C10: the consistency check rejects present-but-empty lists, not only
absent keys: any accepted database has a non-empty entry list for every
indexed module and a non-empty ID list behind every alias referenced by
an entry; concretely, a present key bound to an empty list draws the
same error as a missing key, for that module or alias. -/
theorem claimC10 (d : Database) (hok : checkInternalConsistency d = .ok ()) :
    ((∀ m t, (m, t) ∈ d.index →
        ∃ es, alookup d.entriesByModule m = some es ∧ es ≠ []) ∧
      (∀ id e, (id, e) ∈ d.entriesByID → ∀ al ∈ e.aliases,
        ∃ ids, alookup d.idsByAlias al = some ids ∧ ids ≠ [])) ∧
    checkInternalConsistency dEmptyModule = .error (.noModuleDir "m") ∧
    checkInternalConsistency dEmptyAlias = .error (.aliasNotFound "alias-a" "GO-1") := by
  refine ⟨?_, rfl, rfl⟩
  rw [checkInternalConsistency_ok_iff] at hok
  obtain ⟨-, h1, h2, -⟩ := hok
  constructor
  · unfold checkIndexEntries at h1
    rw [seqCheck_ok_iff] at h1
    intro m t hmt
    have hm := h1 (m, t) hmt
    rw [checkModule_ok_iff] at hm
    obtain ⟨es, hes, hne, -, -⟩ := hm
    exact ⟨es, hes, hne⟩
  · unfold checkByIDEntries at h2
    rw [seqCheck_ok_iff] at h2
    intro id e hmem al hal
    have := (checkEntryRefs_ok_iff _ _ _ _).mp (h2 (id, e) hmem)
    obtain ⟨-, ha⟩ := this
    unfold checkAliasList at ha
    rw [seqCheck_ok_iff] at ha
    have := (aliasStep_ok_iff _ _ _ _).mp (ha al hal)
    obtain ⟨ids, hids, hne, -⟩ := this
    exact ⟨ids, hids, hne⟩

/-- Witness for C10 at the concrete database `dEx`. -/
theorem claimC10_witness :
    checkInternalConsistency dEx = .ok () ∧
      (∃ es, alookup dEx.entriesByModule "stdlib" = some es ∧ es ≠ []) := by
  have hok : checkInternalConsistency dEx = .ok () := rfl
  exact ⟨hok, (claimC10 dEx hok).1.1 "stdlib" 5 (by simp [dEx])⟩

/-- C7: validation surfaces exactly the first fatal finding. Overall
validation succeeds iff both passes succeed; a failing file-inventory
pass is the overall result (the cross-index pass is not consulted); a
directory-walk error aborts the file pass immediately, whatever files
follow; and within the consistency check a length mismatch, a failing
module loop, and a failing by-ID loop each short-circuit all later
sub-checks. -/
theorem claimC7 :
    (∀ d unesc files, validate d unesc files = .ok () ↔
      checkNoUnexpectedFiles d unesc files = .ok () ∧
        checkInternalConsistency d = .ok ()) ∧
    (∀ d unesc files e, checkNoUnexpectedFiles d unesc files = .error e →
      validate d unesc files = .error e) ∧
    (∀ d unesc pre post f, f.walkErr = true →
      checkNoUnexpectedFiles d unesc pre = .ok () →
      checkNoUnexpectedFiles d unesc (pre ++ f :: post) =
        .error (.walkFailure f.relPath)) ∧
    (∀ d, d.index.length ≠ d.entriesByModule.length →
      checkInternalConsistency d =
        .error (.lengthMismatch d.index.length d.entriesByModule.length)) ∧
    (∀ d e, d.index.length = d.entriesByModule.length →
      checkIndexEntries d.entriesByModule d.entriesByID d.index = .error e →
      checkInternalConsistency d = .error e) ∧
    (∀ d e, d.index.length = d.entriesByModule.length →
      checkIndexEntries d.entriesByModule d.entriesByID d.index = .ok () →
      checkByIDEntries d.entriesByModule d.idsByAlias d.entriesByID = .error e →
      checkInternalConsistency d = .error e) := by
  refine ⟨validate_ok_iff, ?_, ?_, ?_, ?_, ?_⟩
  · intro d unesc files e h
    unfold validate
    rw [h]
  · intro d unesc pre post f hw hpre
    unfold checkNoUnexpectedFiles at hpre ⊢
    refine seqCheck_first_error _ pre post f _ hpre ?_
    unfold checkFileStep
    rw [if_pos hw]
  · intro d hlen
    unfold checkInternalConsistency
    rw [if_pos hlen]
  · exact fun d e hlen h => checkInternalConsistency_error_loop1 d e hlen h
  · intro d e hlen h1 h2
    unfold checkInternalConsistency
    rw [if_neg (fun hc => hc hlen), h1, h2]

/-- Witness for C7: a walk error on file ["x"] aborts the pass after an
empty prefix, over the concrete database `dEx`. -/
theorem claimC7_witness :
    checkNoUnexpectedFiles dEx (fun s => some s)
        ([] ++ (⟨["x"], false, true⟩ : DirEntry) :: []) =
      .error (.walkFailure ["x"]) :=
  claimC7.2.2.1 dEx (fun s => some s) [] [] ⟨["x"], false, true⟩ rfl rfl

/-- C8: a non-directory `.json` file wholly outside the by-ID
subdirectory that is not skipped as a top-level index/web file has its
root-relative path, minus the ".json" suffix, put through the module
unescaping; the pass errors distinctly when unescaping fails and when
the decoded module is not a key of `EntriesByModule`, and passes the
file when it is. -/
theorem claimC8 (d : Database) (unesc : String → Option String) (f : DirEntry)
    (hw : f.walkErr = false) (hd : f.isDir = false)
    (hout : f.relPath.headD "" ≠ idDirectory)
    (hskip : ¬(topLevel f ∧ isIndexOrWebFile (fnameOf f) (extOf (fnameOf f))))
    (hjson : extOf (fnameOf f) = ".json") :
    (unesc (trimSuffixJson (joinSlash f.relPath)) = none →
      checkFileStep d unesc f = .error (.unescapeFailure f.relPath)) ∧
    (∀ m, unesc (trimSuffixJson (joinSlash f.relPath)) = some m →
      (alookup d.entriesByModule m = none →
        checkFileStep d unesc f = .error (.unexpectedModule m)) ∧
      (∀ es, alookup d.entriesByModule m = some es →
        checkFileStep d unesc f = .ok ())) ∧
    (∀ p m, VError.unescapeFailure p ≠ VError.unexpectedModule m) := by
  have hstep : checkFileStep d unesc f =
      match unesc (trimSuffixJson (joinSlash f.relPath)) with
      | none => .error (.unescapeFailure f.relPath)
      | some m =>
        match alookup d.entriesByModule m with
        | some _ => .ok ()
        | none => .error (.unexpectedModule m) := by
    unfold checkFileStep
    rw [hw, hd]
    simp only [Bool.false_eq_true, if_false]
    rw [if_neg hskip, if_neg (fun hc => hc hjson),
      if_neg (fun hc : inIDDir f => hout hc.2)]
  refine ⟨?_, ?_, ?_⟩
  · intro hu
    simp [hstep, hu]
  · intro m hu
    constructor
    · intro hl
      simp [hstep, hu, hl]
    · intro es hl
      simp [hstep, hu, hl]
  · intro p m
    simp

/-- Witness for C8: over `dEx`, the subdirectory file
"example.com/module.json" is accepted when unescaping is the identity,
rejected as an unexpected module when unescaping maps it elsewhere, and
rejected as an unescape failure when unescaping fails. -/
theorem claimC8_witness :
    checkFileStep dEx (fun s => some s)
        ⟨["example.com", "module.json"], false, false⟩ = .ok () ∧
      checkFileStep dEx (fun _ => some "other.example")
        ⟨["example.com", "module.json"], false, false⟩ =
        .error (.unexpectedModule "other.example") ∧
      checkFileStep dEx (fun _ => none)
        ⟨["example.com", "module.json"], false, false⟩ =
        .error (.unescapeFailure ["example.com", "module.json"]) := by
  refine ⟨?_, ?_, ?_⟩
  · exact (claimC8 dEx (fun s => some s)
      ⟨["example.com", "module.json"], false, false⟩ rfl rfl
      (by decide) (by decide) (by decide)).2.1 "example.com/module" rfl
      |>.2 [eB] rfl
  · exact (claimC8 dEx (fun _ => some "other.example")
      ⟨["example.com", "module.json"], false, false⟩ rfl rfl
      (by decide) (by decide) (by decide)).2.1 "other.example" rfl
      |>.1 rfl
  · exact (claimC8 dEx (fun _ => none)
      ⟨["example.com", "module.json"], false, false⟩ rfl rfl
      (by decide) (by decide) (by decide)).1 rfl

/-- The empty database (no indexes at all). -/
def dEmpty : Database :=
  { index := [], entriesByModule := [], entriesByID := [], idsByAlias := [] }

/-- Counterexample to C9 as stated: the file ID/index.json is accepted
unconditionally (under every database and every unescaping, even ones
that reject everything), yet it is not a top-level index/web file — so
"skipped without any check exactly when in the top-level directory and
extension-less/.html/.ico/index-or-aliases-named" is false. -/
theorem claimC9_counterexample :
    (∀ (d : Database) (unesc : String → Option String),
      checkFileStep d unesc ⟨[idDirectory, indexFile], false, false⟩ = .ok ()) ∧
    ¬(topLevel (⟨[idDirectory, indexFile], false, false⟩ : DirEntry) ∧
      isIndexOrWebFile (fnameOf (⟨[idDirectory, indexFile], false, false⟩ : DirEntry))
        (extOf (fnameOf (⟨[idDirectory, indexFile], false, false⟩ : DirEntry)))) := by
  constructor
  · intro d unesc
    rfl
  · decide

/-- C9 as amended: a non-directory file is accepted under every database
and every unescaping exactly when it is a top-level index/web file
(extension-less, .html, .ico, or named as the index or aliases file) or
it is the index file directly inside the by-ID subdirectory; and every
other non-directory file without a ".json" extension draws the
non-JSON format error naming its path — in particular extension-less
and .html files in subdirectories are not exempt. -/
theorem claimC9_amended :
    (∀ f : DirEntry, f.walkErr = false → f.isDir = false →
      ((∀ (d : Database) (unesc : String → Option String),
          checkFileStep d unesc f = .ok ()) ↔
        ((topLevel f ∧ isIndexOrWebFile (fnameOf f) (extOf (fnameOf f))) ∨
          f.relPath = [idDirectory, indexFile]))) ∧
    (∀ (d : Database) (unesc : String → Option String) (f : DirEntry),
      f.walkErr = false → f.isDir = false →
      ¬(topLevel f ∧ isIndexOrWebFile (fnameOf f) (extOf (fnameOf f))) →
      extOf (fnameOf f) ≠ ".json" →
      checkFileStep d unesc f = .error (.nonJSONFile f.relPath)) := by
  have hnonjson : ∀ (d : Database) (unesc : String → Option String) (f : DirEntry),
      f.walkErr = false → f.isDir = false →
      ¬(topLevel f ∧ isIndexOrWebFile (fnameOf f) (extOf (fnameOf f))) →
      extOf (fnameOf f) ≠ ".json" →
      checkFileStep d unesc f = .error (.nonJSONFile f.relPath) := by
    intro d unesc f hw hd hskip hext
    unfold checkFileStep
    rw [hw, hd]
    simp only [Bool.false_eq_true, if_false]
    rw [if_neg hskip, if_pos hext]
  refine ⟨?_, hnonjson⟩
  intro f hw hd
  constructor
  · intro hall
    by_contra hcon
    obtain ⟨hskip, hne⟩ := not_or.mp hcon
    by_cases hext : extOf (fnameOf f) = ".json"
    · by_cases hin : inIDDir f
      · obtain ⟨hlen, hhead⟩ := hin
        obtain ⟨a, rest, hrp⟩ := List.exists_cons_of_ne_nil
          (fun hc : f.relPath = [] => by rw [hc] at hlen; simp at hlen)
        obtain ⟨b, rest2, hrest⟩ := List.exists_cons_of_ne_nil
          (fun hc : rest = [] => by rw [hc] at hrp; rw [hrp] at hlen; simp at hlen)
        have hrp2 : f.relPath = [a, b] := by
          rw [hrp, hrest]
          have : rest2 = [] := by
            rw [hrp, hrest] at hlen
            simpa using hlen
          rw [this]
        have ha : a = idDirectory := by
          rw [hrp2] at hhead
          simpa using hhead
        have hfn : fnameOf f = b := by
          rw [fnameOf, hrp2]
          rfl
        by_cases hix : fnameOf f = indexFile
        · exact hne (by rw [hrp2, ha, ← hfn, hix])
        · have hin : inIDDir f := ⟨hlen, hhead⟩
          have := hall dEmpty (fun _ => none)
          unfold checkFileStep at this
          rw [hw, hd] at this
          simp only [Bool.false_eq_true, if_false] at this
          rw [if_neg hskip, if_neg (fun hc => hc hext),
            if_pos hin, if_neg hix] at this
          exact absurd this (by simp [dEmpty, alookup])
      · have := hall dEmpty (fun _ => none)
        unfold checkFileStep at this
        rw [hw, hd] at this
        simp only [Bool.false_eq_true, if_false] at this
        rw [if_neg hskip, if_neg (fun hc => hc hext), if_neg hin] at this
        exact absurd this (by simp)
    · have := hnonjson dEmpty (fun _ => none) f hw hd hskip hext
      rw [hall dEmpty (fun _ => none)] at this
      exact absurd this (by simp)
  · intro hdisj d unesc
    rcases hdisj with hweb | hid
    · unfold checkFileStep
      rw [hw, hd]
      simp only [Bool.false_eq_true, if_false]
      rw [if_pos hweb]
    · obtain ⟨rp, di, we⟩ := f
      simp only at hid hw hd
      subst hid
      subst hw
      subst hd
      rfl

/-- Witness for the amended C9: over `dEx`, the top-level favicon is
accepted for every database and unescaping; an extension-less file and
an .html file in a subdirectory each draw the non-JSON format error. -/
theorem claimC9_witness :
    checkFileStep dEx (fun s => some s) ⟨["favicon.ico"], false, false⟩ = .ok () ∧
      checkFileStep dEx (fun s => some s) ⟨["sub", "README"], false, false⟩ =
        .error (.nonJSONFile ["sub", "README"]) ∧
      checkFileStep dEx (fun s => some s) ⟨["sub", "page.html"], false, false⟩ =
        .error (.nonJSONFile ["sub", "page.html"]) := by
  refine ⟨?_, ?_, ?_⟩
  · exact (claimC9_amended.1 ⟨["favicon.ico"], false, false⟩ rfl rfl).mpr
      (Or.inl (by decide)) dEx (fun s => some s)
  · exact claimC9_amended.2 dEx (fun s => some s) ⟨["sub", "README"], false, false⟩
      rfl rfl (by decide) (by decide)
  · exact claimC9_amended.2 dEx (fun s => some s) ⟨["sub", "page.html"], false, false⟩
      rfl rfl (by decide) (by decide)

/-- The "unsorted" test input of `TestLatestFixedVerion`. -/
def unsortedRanges : List AffectsRange :=
  [⟨"SEMVER", [⟨"", "1.0.0"⟩, ⟨"0", ""⟩, ⟨"", "0.1.0"⟩, ⟨"0.5.0", ""⟩]⟩]

/-- The "unsorted" test input with its events permuted. -/
def unsortedRangesPerm : List AffectsRange :=
  [⟨"SEMVER", [⟨"0", ""⟩, ⟨"", "0.1.0"⟩, ⟨"0.5.0", ""⟩, ⟨"", "1.0.0"⟩]⟩]

/-- The "multiple ranges" test input of `TestLatestFixedVerion`. -/
def multiRanges : List AffectsRange :=
  [⟨"SEMVER", [⟨"0", ""⟩, ⟨"", "0.1.0"⟩]⟩,
   ⟨"SEMVER", [⟨"0", ""⟩, ⟨"", "0.2.0"⟩]⟩]

/-- The "pseudoversion" test input of `TestLatestFixedVerion`. -/
def pseudoRanges : List AffectsRange :=
  [⟨"SEMVER", [⟨"0", ""⟩, ⟨"", "0.0.0-20220824120805-abc"⟩,
               ⟨"0.0.0-20230824120805-efg", ""⟩, ⟨"", "0.0.0-20240824120805-hij"⟩]⟩]

/-- C4: `latestFixedVersion` is a pure maximum-of-fixed-boundaries
reducer: it returns "" on the empty range list and on ranges with no
fixed boundary; otherwise it returns one of the collected fixed
boundaries and no collected boundary is strictly later than it; the
result depends only on the strictly-greatest collected boundary, so it
is insensitive to the order of ranges and events; and the spec's
concrete examples evaluate as stated (with the pseudo-version case
decided by the embedded timestamps). -/
theorem claimC4 :
    latestFixedVersion [] = "" ∧
    (∀ r : AffectsRange, (∀ e ∈ r.events, e.fixed = "") →
      latestFixedVersion [r] = "") ∧
    (∀ ranges : List AffectsRange,
      (fixedsOf ranges = [] → latestFixedVersion ranges = "") ∧
      (fixedsOf ranges ≠ [] →
        latestFixedVersion ranges ∈ fixedsOf ranges ∧
          ∀ v ∈ fixedsOf ranges, verLater v (latestFixedVersion ranges) = false)) ∧
    (∀ (r₁ r₂ : List AffectsRange) (x : String),
      List.Perm (fixedsOf r₁) (fixedsOf r₂) → x ∈ fixedsOf r₁ →
      (∀ y ∈ fixedsOf r₁, y ≠ x → verLater x y = true) →
      latestFixedVersion r₁ = latestFixedVersion r₂) ∧
    latestFixedVersion unsortedRanges = "1.0.0" ∧
    latestFixedVersion multiRanges = "0.2.0" ∧
    latestFixedVersion pseudoRanges = "0.0.0-20240824120805-hij" := by
  refine ⟨rfl, ?_, ?_, ?_, rfl, rfl, rfl⟩
  · intro r hnf
    refine latestFixedVersion_of_no_fixed [r] ?_
    rw [fixedsOf]
    rw [List.filterMap_eq_nil_iff]
    intro e he
    simp only [List.map_cons, List.map_nil, List.flatten_cons, List.flatten_nil,
      List.append_nil] at he
    rw [if_pos (hnf e he)]
  · intro ranges
    exact ⟨latestFixedVersion_of_no_fixed ranges, latestFixedVersion_spec ranges⟩
  · intro r₁ r₂ x hperm hx hgt
    have h1 : latestFixedVersion r₁ = x := latestFixedVersion_eq_of_greatest r₁ x hx hgt
    have h2 : latestFixedVersion r₂ = x := by
      refine latestFixedVersion_eq_of_greatest r₂ x (hperm.mem_iff.mp hx) ?_
      intro y hy hyx
      exact hgt y (hperm.mem_iff.mpr hy) hyx
    rw [h1, h2]

/-- Witness for C4: the order-insensitivity clause applied to the
"unsorted" example and its permutation, with the remaining hypotheses
checked concretely. -/
theorem claimC4_witness :
    latestFixedVersion unsortedRanges = latestFixedVersion unsortedRangesPerm ∧
      latestFixedVersion [⟨"SEMVER", [⟨"0", ""⟩]⟩] = "" := by
  constructor
  · exact claimC4.2.2.2.1 unsortedRanges unsortedRangesPerm "1.0.0"
      (by decide) (by decide) (by decide)
  · exact claimC4.2.1 ⟨"SEMVER", [⟨"0", ""⟩]⟩ (by decide)

/-- C6: the normalizer rejects duplicate IDs and only duplicate IDs: it
returns the construction error exactly when two input entries share an
ID, and whenever it returns a database at all the input IDs were
pairwise distinct (so no duplicate was silently overwritten or
merged). -/
theorem claimC6 (entries : List Entry) :
    (New entries = .error .duplicateID ↔
      ¬(entries.map (fun e => e.id)).Nodup) ∧
    (∀ db, New entries = .ok db → (entries.map (fun e => e.id)).Nodup) := by
  constructor
  · unfold New
    by_cases h : (entries.map (fun e => e.id)).Nodup
    · rw [if_pos h]
      simp [h]
    · rw [if_neg h]
      simp [h]
  · intro db hok
    unfold New at hok
    by_cases h : (entries.map (fun e => e.id)).Nodup
    · exact h
    · rw [if_neg h] at hok
      exact absurd hok (by simp)

/-- Witness for C6: a duplicated concrete entry is rejected. -/
theorem claimC6_witness :
    New [eA, eA] = .error .duplicateID ∧
      (New [eA, eB]).isOk = true := by
  constructor
  · exact (claimC6 [eA, eA]).1.mpr (by decide)
  · rfl

/-- C3: consistency validation of a database built directly by the
normalizer from entries with unique IDs always passes — composing `New`
with the consistency check never reports an error on untampered
output. -/
theorem claimC3 (entries : List Entry) (db : Database)
    (hnew : New entries = .ok db) : checkInternalConsistency db = .ok () := by
  unfold New at hnew
  by_cases hnd : (entries.map (fun e => e.id)).Nodup
  swap
  · rw [if_neg hnd] at hnew
    exact absurd hnew (by simp)
  rw [if_pos hnd] at hnew
  injection hnew with hdb
  subst hdb
  rw [checkInternalConsistency_ok_iff]
  refine ⟨by simp, ?_, ?_, ?_⟩
  · -- loop over the module index
    unfold checkIndexEntries
    rw [seqCheck_ok_iff]
    intro p hp
    simp only [List.mem_map] at hp
    obtain ⟨m, hm, rfl⟩ := hp
    rw [checkModule_ok_iff]
    refine ⟨entriesForModule entries m, ?_, entriesForModule_ne_nil entries m hm, ?_, rfl⟩
    · simp only [alookup_map_fn, if_pos hm]
    · intro e he
      have he' : e ∈ entries := ((mem_entriesForModule entries m e).mp he).1
      exact alookup_graph entries e hnd he'
  · -- loop over the by-ID map
    unfold checkByIDEntries
    rw [seqCheck_ok_iff]
    intro p hp
    simp only [List.mem_map] at hp
    obtain ⟨e, he, rfl⟩ := hp
    rw [checkEntryRefs_ok_iff]
    constructor
    · unfold checkAffectedList
      rw [seqCheck_ok_iff]
      intro a ha
      rw [affStep_ok_iff]
      have hm : a.pkg.name ∈ modulesOf entries := by
        rw [mem_modulesOf]
        exact ⟨e, he, List.mem_map_of_mem (fun x => x.pkg.name) ha⟩
      refine ⟨entriesForModule entries a.pkg.name, ?_,
        entriesForModule_ne_nil entries a.pkg.name hm, ?_⟩
      · simp only [alookup_map_fn, if_pos hm]
      · have hmem : e ∈ entriesForModule entries a.pkg.name := by
          rw [mem_entriesForModule]
          exact ⟨he, List.mem_map_of_mem (fun x => x.pkg.name) ha⟩
        exact List.mem_map_of_mem (fun g => g.id) hmem
    · unfold checkAliasList
      rw [seqCheck_ok_iff]
      intro al hal
      rw [aliasStep_ok_iff]
      have ha : al ∈ aliasesOf entries := by
        rw [mem_aliasesOf]
        exact ⟨e, he, hal⟩
      have hfil : e ∈ entries.filter (fun x => decide (al ∈ x.aliases)) := by
        rw [List.mem_filter]
        simp [he, hal]
      refine ⟨(entries.filter (fun x => decide (al ∈ x.aliases))).map (fun x => x.id),
        ?_, ?_, ?_⟩
      · simp only [alookup_map_fn, if_pos ha]
      · intro hc
        have hidmem : e.id ∈ (entries.filter (fun x => decide (al ∈ x.aliases))).map
            (fun x => x.id) := List.mem_map_of_mem (fun x => x.id) hfil
        rw [hc] at hidmem
        simp at hidmem
      · exact List.mem_map_of_mem (fun x => x.id) hfil
  · -- loop over the alias index
    unfold checkAliasEntries
    rw [seqCheck_ok_iff]
    intro p hp
    simp only [List.mem_map] at hp
    obtain ⟨al, hal, rfl⟩ := hp
    unfold checkAliasIDList
    rw [seqCheck_ok_iff]
    intro gid hgid
    rw [aliasIDStep_ok_iff]
    simp only [List.mem_map] at hgid
    obtain ⟨e, hef, rfl⟩ := hgid
    rw [List.mem_filter] at hef
    obtain ⟨he, hala⟩ := hef
    refine ⟨e, alookup_graph entries e hnd he, ?_⟩
    exact of_decide_eq_true hala

/-- Witness for C3: the composition at two concrete entries. -/
theorem claimC3_witness :
    ∃ db, New [eA, eB] = .ok db ∧ checkInternalConsistency db = .ok () := by
  refine ⟨_, rfl, claimC3 [eA, eB] _ rfl⟩

end Cvelist
